import Mathlib

/-!
# Verification of the LRL-Workhorse orchestration core

Shallow embedding of `src/orchestrators/base_orchestrator.py` and the agent
template (`src/agents/base_agent.py`, `src/agents/clinical_terminology_agent.py`,
`src/agents/agent_factory.py`) in Lean 4, with theorems settling the frozen
claims about routing, scoring, cross-validation, the multi-instance queue
protocol, wave scheduling and the agent contract.

Python floats are modelled as exact rationals (ℚ); Python dicts as association
lists or `Option`-valued lookup functions; Redis lists as Lean lists with the
head at the Redis list's left end; exceptions as `Except`.
-/

namespace LRL

/-! ## Agent results as seen by the orchestrator

An agent result is a Python dict.  The orchestrator reads it with `.get`:
`result.get('confidence', 0.5)` and `result.get('findings', [])`.  An agent
that raised an exception is recorded as `{'error': ...}` — a dict that is
present but has neither key.  We model the dict by which of those keys it
carries. -/

/-- A finding dict as read by `thermopylae_cross_validation`:
`flag.get('line_number')` (may be absent ⇒ `none`) and
`flag.get('category')`. -/
structure Finding where
  line_number : Option Int
  category : Option String
deriving DecidableEq, Repr

/-- An agent-result dict as read by `calculate_tdai_score` and
`thermopylae_cross_validation`: `confidence` and `findings` keys may each be
absent (e.g. for the `{'error': ...}` stub recorded when the agent raised). -/
structure AgentRes where
  confidence : Option ℚ
  findings : Option (List Finding)
deriving DecidableEq, Repr

/-- A per-wave result dict: agent name → result, `none` when the agent is not
in the dict (agent missing / not loaded). -/
def WaveDict := String → Option AgentRes

/-- `results['waves']` as read by `calculate_tdai_score`:
`wave_results.get(1, {})`, `.get(2, {})`, `.get(3, {})`. -/
structure Waves where
  w1 : WaveDict
  w2 : WaveDict
  w3 : WaveDict

/-! ## Scoring engine — `calculate_tdai_score`
(src/orchestrators/base_orchestrator.py lines 306–364) -/

/-- One confidence-based dimension: `0.0` when the agent is absent from the
wave dict, else `result.get('confidence', 0.5) * 10`. -/
def confDim (o : Option AgentRes) : ℚ :=
  match o with
  | none => 0
  | some r => (r.confidence.getD (1/2)) * 10

/-- The practical-application dimension, from `gaps_identifier`:
`0.0` when absent, else `max(0, 10 - gap_count * 0.5)` with
`gap_count = len(result.get('findings', []))`. -/
def practicalDim (o : Option AgentRes) : ℚ :=
  match o with
  | none => 0
  | some r => max 0 (10 - ((r.findings.getD []).length : ℚ) * (1/2))

/-- `calculate_tdai_score`: fixed weights
emotional_depth 0.20, somatic_awareness 0.20, research_integration 0.15,
practical_application 0.10, cultural_sensitivity 0.10, forensic_accuracy 0.15,
academic_rigor 0.10; weighted sum clamped with `min(10.0, total)`. -/
def calculate_tdai_score (w : Waves) : ℚ :=
  let emotional_depth := confDim (w.w2 "emotional_intelligence")
  let somatic_awareness := confDim (w.w2 "somatic_awareness")
  let research_integration := confDim (w.w2 "research_connector")
  let cultural_sensitivity := confDim (w.w2 "cultural_context")
  let forensic_accuracy := confDim (w.w1 "forensic_accuracy")
  let academic_rigor := confDim (w.w3 "academic_rigor")
  let practical_application := practicalDim (w.w2 "gaps_identifier")
  let total :=
    emotional_depth * (20/100) + somatic_awareness * (20/100) +
    research_integration * (15/100) + practical_application * (10/100) +
    cultural_sensitivity * (10/100) + forensic_accuracy * (15/100) +
    academic_rigor * (10/100)
  min 10 total

/-! ## Cross-validation — `thermopylae_cross_validation`
(src/orchestrators/base_orchestrator.py lines 251–279)

`results['waves'].get(3, {}).get(name, {})` yields `{}` when the agent is
missing, and `if not detector_result or not validator_result` treats a missing
(falsy, empty-dict) result as incomplete.  We model a missing-or-empty result
as `none`. -/

inductive CVStatus where
  | review_required
  | clear
  | incomplete
deriving DecidableEq, Repr

structure Disagreement where
  line : Option Int
  detector_concern : Option String
deriving DecidableEq, Repr

structure CVResult where
  status : CVStatus
  disagreements : List Disagreement
deriving DecidableEq, Repr

/-- One detector flag is validated when some validator finding has the same
`line_number` (Python `any(v.get('line_number') == line_num ...)`). -/
def validatedFlag (validator_confirms : List Finding) (flag : Finding) : Bool :=
  validator_confirms.any (fun v => v.line_number = flag.line_number)

/-- `thermopylae_cross_validation` on the two wave-3 results
(`semantic_weaponization_detector`, `trauma_pattern_validator`);
`none` models a missing (or empty, hence falsy) result dict. -/
def thermopylae_cross_validation (detector validator : Option AgentRes) : CVResult :=
  match detector, validator with
  | some d, some v =>
      let detector_flags := d.findings.getD []
      let validator_confirms := v.findings.getD []
      let disagreements := (detector_flags.filter
          (fun flag => ¬ validatedFlag validator_confirms flag)).map
        (fun flag => ⟨flag.line_number, flag.category⟩)
      { status := if disagreements.isEmpty then .clear else .review_required
        disagreements := disagreements }
  | _, _ => { status := .incomplete, disagreements := [] }

/-! ## Routing — `handle_task_results`
(src/orchestrators/base_orchestrator.py lines 281–304) -/

inductive Queue where
  | review
  | completed
deriving DecidableEq, Repr

/-- The destination chosen by `handle_task_results`:
review when the Thermopylae status is `review_required`, else review when the
TDAI score is below 8.0, else completed. -/
def destinationQueue (status : CVStatus) (tdai_score : ℚ) : Queue :=
  if status = .review_required then .review
  else if tdai_score < 8 then .review
  else .completed

/-- The two terminal result queues written by `handle_task_results`
(`tasks:review` and `tasks:completed`), head of the Lean list = left end of
the Redis list. -/
structure TerminalQueues where
  review : List String
  completed : List String
deriving DecidableEq, Repr

/-- The single `lpush` of the serialized result performed by
`handle_task_results` (line 300), to the queue chosen by the routing
decision. -/
def pushResult (q : TerminalQueues) (status : CVStatus) (tdai_score : ℚ)
    (res : String) : TerminalQueues :=
  match destinationQueue status tdai_score with
  | .review => { q with review := res :: q.review }
  | .completed => { q with completed := res :: q.completed }

/-! ## Multi-instance queue protocol
(`process_tasks` lines 187–207, `handle_orchestrator_failure` lines 142–155,
`shutdown` lines 395–408)

The shared store holds one pending list (`tasks:pending`), one private
processing list per orchestrator instance (`tasks:processing:<id>`), and the
active-instance set (`orchestrators:active`).  `n` instances are identified
by `Fin n`.  Lists are Lean lists with head = Redis left end, so
`rpoplpush src dst` pops the LAST element of `src` and conses it onto
`dst`. -/

abbrev Task := String

structure MState (n : Nat) where
  pending : List Task
  procs : Fin n → List Task
  active : Finset (Fin n)

/-- One atomic transition of the shared store, as issued by the orchestrator
code:
* `claim i` — `brpoplpush(pending_queue, processing_queue)` (line 190):
  pop the tail of pending, push onto instance `i`'s processing list.
* `finish i t` — `lrem(processing_queue, 1, task_json)` (line 207): remove
  the first occurrence of the finished task from `i`'s processing list.
* `drain j` — one `rpoplpush(tasks:processing:<j>, pending_queue)` iteration
  of `handle_orchestrator_failure` (line 149) or `shutdown` (line 404),
  issued by any peer: move the tail of `j`'s processing list to the head of
  pending.
* `deactivate j` — `srem("orchestrators:active", j)` (lines 155, 400). -/
inductive Step : {n : Nat} → MState n → MState n → Prop
  | claim {n} (s : MState n) (i : Fin n) (t : Task) (rest : List Task) :
      s.pending = rest ++ [t] →
      Step s { s with pending := rest,
                      procs := Function.update s.procs i (t :: s.procs i) }
  | finish {n} (s : MState n) (i : Fin n) (t : Task) :
      t ∈ s.procs i →
      Step s { s with procs := Function.update s.procs i ((s.procs i).erase t) }
  | drain {n} (s : MState n) (j : Fin n) (t : Task) (init : List Task) :
      s.procs j = init ++ [t] →
      Step s { s with pending := t :: s.pending,
                      procs := Function.update s.procs j init }
  | deactivate {n} (s : MState n) (j : Fin n) :
      Step s { s with active := s.active.erase j }

/-- Reachability under any interleaving of atomic store operations. -/
def Reachable {n : Nat} (s s' : MState n) : Prop :=
  Relation.ReflTransGen Step s s'

/-- Total number of copies of task `t` held in the pending list and all
processing lists together. -/
def totalCount {n : Nat} (s : MState n) (t : Task) : Nat :=
  s.pending.count t + ∑ i : Fin n, (s.procs i).count t

/-- One `rpoplpush(tasks:processing:<j>, pending_queue)` as a function:
a no-op when `j`'s processing list is already empty (the Redis command
returns nil), else the atomic tail-to-head move. -/
def drainStep {n : Nat} (s : MState n) (j : Fin n) : MState n :=
  match (s.procs j).getLast? with
  | none => s
  | some t => { s with pending := t :: s.pending,
                       procs := Function.update s.procs j (s.procs j).dropLast }

/-- `k` successive drain iterations targeting instance `j` (issued by one or
several peers — each iteration is the same atomic store operation whoever
issues it). -/
def drainN {n : Nat} (s : MState n) (j : Fin n) : Nat → MState n
  | 0 => s
  | k + 1 => drainN (drainStep s j) j k

/-- `handle_orchestrator_failure` (lines 142–155): loop
`rpoplpush(failed_processing, pending_queue)` until nil — exactly
`(s.procs j).length` effective iterations — then
`srem("orchestrators:active", j)`. -/
def handle_orchestrator_failure {n : Nat} (s : MState n) (j : Fin n) : MState n :=
  let s' := drainN s j (s.procs j).length
  { s' with active := s'.active.erase j }

/-- `shutdown` (lines 395–408): `srem("orchestrators:active", id)` first,
then loop `rpoplpush(processing_queue, pending_queue)` until nil. -/
def shutdown {n : Nat} (s : MState n) (i : Fin n) : MState n :=
  let s' := { s with active := s.active.erase i }
  drainN s' i (s'.procs i).length

/-! ## Wave scheduler — `process_task_through_waves`
(src/orchestrators/base_orchestrator.py lines 213–249)

The task context is a Python dict; the scheduler adds entries under string
keys `f'wave_{wave_num}_{agent_name}'` (line 238).  Since the key is
determined by the pair (wave number, agent name) and those keys are fresh,
we model the context's wave entries as an append-only list of records — the
dict's insertion order.  An agent is a function of the transcript and the
context it is shown; its `none` outcome models a raised exception (recorded
as an `{'error': ...}` stub in `wave_results`, NOT merged into the context);
a name absent from the registry models an unloaded agent (skipped). -/

structure WEntry where
  wave : Nat
  agent : String
  result : AgentRes
deriving DecidableEq, Repr

abbrev Ctx := List WEntry

abbrev Registry := String → Option (String → Ctx → Option AgentRes)

/-- Record of one agent invocation: which wave, which agent, and the context
the agent was shown when invoked. -/
structure TraceEntry where
  wave : Nat
  agent : String
  seen : Ctx
deriving DecidableEq, Repr

/-- The inner loop of `process_task_through_waves` (lines 230–242): agents of
one wave are invoked in list order; after EACH successful agent its result is
written into the shared context (line 238, inside the per-agent loop) before
the next agent of the same wave runs. -/
def runWaveAgents (reg : Registry) (transcript : String) (w : Nat) :
    List String → Ctx → Ctx × List TraceEntry
  | [], ctx => (ctx, [])
  | name :: rest, ctx =>
    match reg name with
    | none => runWaveAgents reg transcript w rest ctx
    | some analyze =>
      match analyze transcript ctx with
      | none =>
          let p := runWaveAgents reg transcript w rest ctx
          (p.1, ⟨w, name, ctx⟩ :: p.2)
      | some r =>
          let p := runWaveAgents reg transcript w rest (ctx ++ [⟨w, name, r⟩])
          (p.1, ⟨w, name, ctx⟩ :: p.2)

/-- The outer loop of `process_task_through_waves` (line 227): waves in
sorted key order, each wave run to completion before the next starts. -/
def runWaveList (reg : Registry) (transcript : String) :
    List (Nat × List String) → Ctx → Ctx × List TraceEntry
  | [], ctx => (ctx, [])
  | (w, names) :: ws, ctx =>
      let p := runWaveAgents reg transcript w names ctx
      let q := runWaveList reg transcript ws p.1
      (q.1, p.2 ++ q.2)

/-- `self.agent_waves` (lines 49–58), already in sorted key order
(`sorted(self.agent_waves.keys())` = `[1, 2, 3, 4]`). -/
def agent_waves : List (Nat × List String) :=
  [(1, ["forensic_accuracy", "verbatim_preservation"]),
   (2, ["emotional_intelligence", "somatic_awareness", "therapeutic_alliance",
        "attachment_dynamics", "safety_trust", "unconscious_communication",
        "cultural_context", "clinical_terminology", "narrative_coherence",
        "research_connector", "gaps_identifier"]),
   (3, ["academic_rigor", "scientific_validation", "action_research_validator",
        "semantic_weaponization_detector", "trauma_pattern_validator"]),
   (4, ["integration_synthesis"])]

/-- `process_task_through_waves` restricted to its context-threading
behaviour: the waves of `agent_waves` starting from a context with no wave
entries yet, returning the final context and the invocation trace. -/
def process_task_through_waves (reg : Registry) (transcript : String) :
    Ctx × List TraceEntry :=
  runWaveList reg transcript agent_waves []

/-! ## The agent contract — `BaseAgent.validate_input`
(src/agents/base_agent.py lines 69–104) and
`ClinicalTerminologyAgent.analyze` (src/agents/clinical_terminology_agent.py)

Raising `ValueError` is modelled as `Except.error` carrying the message.
`unicodedata.normalize('NFC', data)` is modelled as the identity (NFC is the
identity on the ASCII data considered throughout); `str.lower` is modelled
with `Char.toLower` (faithful on ASCII). -/

def zeroWidthChars : List Char :=
  ['\u200B', '\u200C', '\u200D', '\u2060', '\uFEFF']

def injectionPatterns : List String :=
  ["ignore previous", "disregard above", "system prompt", "```python"]

/-- Removal of zero-width characters (lines 80–85). -/
def stripZeroWidth (data : String) : String :=
  String.mk (data.toList.filter (fun c => ¬ c ∈ zeroWidthChars))

def pyLower (l : List Char) : List Char := l.map Char.toLower

/-- `BaseAgent.validate_input` (lines 69–104): raise on input over
10,000,000 characters; normalize and strip zero-width characters; raise on
the first injection pattern found in the lowercased data; else return the
sanitized data. -/
def validate_input (data : String) : Except String String :=
  if data.length > 10000000 then Except.error "Input exceeds size limit"
  else
    match injectionPatterns.find?
        (fun p => decide (p.toList <:+: pyLower (stripZeroWidth data).toList)) with
    | some p => Except.error ("Potential injection detected: " ++ p)
    | none => Except.ok (stripZeroWidth data)

/-- A finding dict built by `_analyze_clinical_terminology` (lines 103–122). -/
structure ClinicalFinding where
  line_number : Nat
  category : String
  term : String
  context : String
  confidence : ℚ
deriving DecidableEq, Repr

/-- `self.vocabulary` of `ClinicalTerminologyAgent` (lines 27–52), in dict
insertion order. -/
def vocabulary : List (String × List String) :=
  [("technical", ["DSM-5", "ICD-11", "diagnosis", "symptomatology"]),
   ("accessible", ["struggle", "difficulty", "pattern", "experience"]),
   ("bridge", ["translation", "explanation", "clarification", "simplification"]),
   ("precision", ["operationalized", "measurable", "criteria", "threshold"])]

/-- Splitting a character list at every occurrence of `c`, keeping empty
pieces — structural recursion with the semantics of Python `str.split(c)`. -/
def splitOnChar (c : Char) : List Char → List (List Char)
  | [] => [[]]
  | a :: rest =>
    match splitOnChar c rest with
    | [] => [[]]
    | h :: t => if a = c then [] :: h :: t else (a :: h) :: t

/-- Python `data.split('\n')`. -/
def pySplitLines (s : String) : List String :=
  (splitOnChar '\n' s.toList).map String.mk

/-- Python `context.split()` — split on whitespace runs, no empty pieces. -/
def pySplitWs (s : String) : List String :=
  (s.split Char.isWhitespace).filter (fun p => p ≠ "")

/-- `_assess_confidence` (lines 153–164): 1.0 on exact match with the
stripped line, 0.8 when the line has fewer than 10 words, else the base
0.7. -/
def assess_confidence (term line : String) : ℚ :=
  if term = line.trim then 1
  else if (pySplitWs line).length < 10 then 8/10
  else 7/10

/-- `_analyze_clinical_terminology` (lines 103–122): for each vocabulary
category, each line (1-based) and each term, emit a finding when the
lowercased term occurs in the lowercased line. -/
def analyze_clinical_terminology (data : String) : List ClinicalFinding :=
  vocabulary.flatMap (fun p =>
    ((pySplitLines data).enum).flatMap (fun il =>
      (p.2.filter (fun term => decide (pyLower term.toList <:+: pyLower il.2.toList))).map
        (fun term =>
          { line_number := il.1 + 1, category := p.1, term := term,
            context := il.2.trim, confidence := assess_confidence term il.2 })))

/-- `self.pattern_tracker`: key `f"{category}:{term}"` → (count, contexts),
an insertion-ordered dict (first-seen timestamps are not modelled). -/
abbrev PatternTracker := List (String × Nat × List String)

/-- One iteration of `_track_patterns` (lines 124–136). -/
def trackOne (tr : PatternTracker) (f : ClinicalFinding) : PatternTracker :=
  let key := f.category ++ ":" ++ f.term
  if (tr.find? (fun e => e.1 = key)).isSome then
    tr.map (fun e => if e.1 = key then (e.1, e.2.1 + 1, e.2.2 ++ [f.context]) else e)
  else
    tr ++ [(key, 1, [f.context])]

/-- `_track_patterns`: fold over the findings, mutating the tracker. -/
def track_patterns (tr : PatternTracker) (findings : List ClinicalFinding) :
    PatternTracker :=
  findings.foldl trackOne tr

structure PatternSummary where
  pattern : String
  frequency : Nat
  strength : String
deriving DecidableEq, Repr

/-- `_identify_patterns` (lines 138–151): tracked keys with count ≥ 3, tagged
`"strong"` at count ≥ 5, else `"moderate"`. -/
def identify_patterns (tr : PatternTracker) : List PatternSummary :=
  (tr.filter (fun e => 3 ≤ e.2.1)).map
    (fun e => ⟨e.1, e.2.1, if 5 ≤ e.2.1 then "strong" else "moderate"⟩)

/-- `_calculate_confidence` (lines 166–178): 0 on no findings, else the
average finding confidence plus `min(0.2, len(pattern_tracker) * 0.02)`,
capped at 1. -/
def calculate_confidence (tr : PatternTracker) (findings : List ClinicalFinding) : ℚ :=
  if findings.isEmpty then 0
  else
    let avg := (findings.map (fun f => f.confidence)).sum / (findings.length : ℚ)
    min 1 (avg + min (2/10) ((tr.length : ℚ) * (2/100)))

structure ClinicalResults where
  findings : List ClinicalFinding
  patterns : List PatternSummary
  confidence : ℚ
deriving DecidableEq, Repr

/-- `ClinicalTerminologyAgent.analyze` (lines 58–101): validate (which may
raise), analyze, update the persistent `pattern_tracker`, then compute
patterns and confidence from the UPDATED tracker.  The agent's mutable state
is passed and returned explicitly. -/
def clinical_analyze (tr : PatternTracker) (data : String) :
    Except String (PatternTracker × ClinicalResults) :=
  match validate_input data with
  | Except.error e => Except.error e
  | Except.ok clean =>
    Except.ok (track_patterns tr (analyze_clinical_terminology clean),
      { findings := analyze_clinical_terminology clean
        patterns := identify_patterns
          (track_patterns tr (analyze_clinical_terminology clean))
        confidence := calculate_confidence
          (track_patterns tr (analyze_clinical_terminology clean))
          (analyze_clinical_terminology clean) })

/-! ## Specification-level reformulations and concrete instances -/

/-- The spec's claimed reading of a confidence dimension: "contributes 0 when
that agent is missing or failed" — a failed agent (error stub, no reported
confidence) contributes 0.  Stated from the claim's words, for comparison
with `confDim`. -/
def claimedConfDim (o : Option AgentRes) : ℚ :=
  match o with
  | none => 0
  | some r =>
    match r.confidence with
    | none => 0
    | some c => c * 10

/-- The spec's claimed reading of the practical-application dimension, with a
missing-or-failed gaps agent contributing 0. -/
def claimedPracticalDim (o : Option AgentRes) : ℚ :=
  match o with
  | none => 0
  | some r =>
    match r.findings with
    | none => 0
    | some l => max 0 (10 - (l.length : ℚ) * (1/2))

/-- The composite score as the claim describes it (failed agents contribute
0), for comparison with `calculate_tdai_score`. -/
def claimed_tdai_score (w : Waves) : ℚ :=
  min 10 ((20/100) * claimedConfDim (w.w2 "emotional_intelligence") +
    (20/100) * claimedConfDim (w.w2 "somatic_awareness") +
    (15/100) * claimedConfDim (w.w2 "research_connector") +
    (10/100) * claimedPracticalDim (w.w2 "gaps_identifier") +
    (10/100) * claimedConfDim (w.w2 "cultural_context") +
    (15/100) * claimedConfDim (w.w1 "forensic_accuracy") +
    (10/100) * claimedConfDim (w.w3 "academic_rigor"))

/-- A confidence dimension as the code actually computes it, written out by
cases: the reported confidence scaled to 0–10 when present, the scaled
default 0.5 (= 5.0) when the agent is present without a confidence value
(including error stubs of failed agents), 0 when the agent is missing. -/
def amendedConfDim (o : Option AgentRes) : ℚ :=
  match o with
  | none => 0
  | some r =>
    match r.confidence with
    | none => 5
    | some c => c * 10

/-- The practical-application dimension by cases: an absent findings key is
read as an empty list (so a failed gaps agent scores the full 10), a missing
agent scores 0. -/
def amendedPracticalDim (o : Option AgentRes) : ℚ :=
  match o with
  | none => 0
  | some r =>
    match r.findings with
    | none => 10
    | some l => max 0 (10 - (l.length : ℚ) * (1/2))

/-- The weighted rubric of the amended claim. -/
def amendedWeighted (w : Waves) : ℚ :=
  (20/100) * amendedConfDim (w.w2 "emotional_intelligence") +
  (20/100) * amendedConfDim (w.w2 "somatic_awareness") +
  (15/100) * amendedConfDim (w.w2 "research_connector") +
  (10/100) * amendedPracticalDim (w.w2 "gaps_identifier") +
  (10/100) * amendedConfDim (w.w2 "cultural_context") +
  (15/100) * amendedConfDim (w.w1 "forensic_accuracy") +
  (10/100) * amendedConfDim (w.w3 "academic_rigor")

/-- A waves map in which the `emotional_intelligence` agent failed (its slot
holds the `{'error': ...}` stub: present, but with neither a `confidence` nor
a `findings` key) and every other agent is missing. -/
def failedEIWaves : Waves :=
  { w1 := fun _ => none
    w2 := fun s => if s = "emotional_intelligence" then some ⟨none, none⟩ else none
    w3 := fun _ => none }

/-- Disabling (removing) one wave-2 agent: its entry is deleted from the
wave-2 dict. -/
def removeAgent2 (w : Waves) (name : String) : Waves :=
  { w with w2 := fun s => if s = name then none else w.w2 s }

/-- All confidences recorded in the wave-2 dict are nonnegative (agents
report confidences in 0.0–1.0). -/
def ConfNonneg (w : Waves) : Prop :=
  ∀ s r c, w.w2 s = some r → r.confidence = some c → 0 ≤ c

/-- A concrete waves map with one reporting wave-2 agent, for witnesses. -/
def c7Waves : Waves :=
  { w1 := fun _ => none
    w2 := fun s => if s = "emotional_intelligence" then some ⟨some (9/10), none⟩ else none
    w3 := fun _ => none }

/-- The detector flags for which no validator finding exists at the same
line number — the list mapped into disagreement entries by
`thermopylae_cross_validation`. -/
def unmatchedFlags (dr vr : AgentRes) : List Finding :=
  (dr.findings.getD []).filter
    (fun flag => ¬ validatedFlag (vr.findings.getD []) flag)

/-- Concrete detector result: one finding at line 12. -/
def c3d : AgentRes := ⟨none, some [⟨some 12, some "risk"⟩]⟩

/-- Concrete validator result: no findings. -/
def c3v : AgentRes := ⟨none, some []⟩

/-- Initial two-instance store state: one pending task, everything else
empty. -/
def c2s0 : MState 2 := { pending := ["t1"], procs := fun _ => [], active := ∅ }

/-- The state after instance 0 claims the task. -/
def c2s1 : MState 2 :=
  { pending := [], procs := Function.update (fun _ => ([] : List Task)) 0 ["t1"],
    active := ∅ }

/-- A store state where instance 0 (of one) holds one in-flight task. -/
def c5s : MState 1 :=
  { pending := ["p"], procs := fun _ => ["a"], active := {0} }

/-- A store state whose only processing list is already empty. -/
def c5sEmpty : MState 1 :=
  { pending := [], procs := fun _ => [], active := {0} }

/-- A two-instance store state with one in-flight task per instance. -/
def c10s : MState 2 :=
  { pending := ["q"], procs := fun _ => ["w"], active := {0, 1} }

/-- A successful agent result for the wave-scheduler counterexample. -/
def r0 : AgentRes := ⟨some 1, some []⟩

/-- A registry loading exactly the first two wave-2 agents, both returning
`r0`. -/
def cexReg : Registry := fun s =>
  if s = "emotional_intelligence" ∨ s = "somatic_awareness" then
    some (fun _ _ => some r0)
  else none

/-- An input exceeding the 10,000,000-character size limit. -/
def oversized : String := String.mk (List.replicate 10000001 'a')

/-- Input whose three lines each contain the vocabulary term `diagnosis`. -/
def c9_input : String := "diagnosis\ndiagnosis\ndiagnosis"

/-- The sanitized form of `c9_input` (it contains no zero-width characters). -/
def c9_clean : String := stripZeroWidth c9_input

/-- The findings produced on `c9_input` (the same on every call). -/
def c9_findings : List ClinicalFinding := analyze_clinical_terminology c9_clean

/-- The agent's pattern tracker after one `analyze` call on `c9_input`. -/
def c9_tr1 : PatternTracker := track_patterns [] c9_findings

/-- The result of the first `analyze` call on a fresh agent. -/
def c9_r1 : ClinicalResults :=
  { findings := c9_findings
    patterns := identify_patterns c9_tr1
    confidence := calculate_confidence c9_tr1 c9_findings }

/-- The agent's pattern tracker after the second identical call. -/
def c9_tr2 : PatternTracker := track_patterns c9_tr1 c9_findings

/-- The result of the second identical `analyze` call. -/
def c9_r2 : ClinicalResults :=
  { findings := c9_findings
    patterns := identify_patterns c9_tr2
    confidence := calculate_confidence c9_tr2 c9_findings }

/-! ## Theorems -/

/-- C1: for every processed task the destination queue is a pure function of
the cross-validation status and the composite score, and the result is pushed
to exactly one terminal queue: `review_required` forces the review queue
regardless of score; otherwise a composite score below 8.0 goes to review;
otherwise to completed. -/
theorem routing_pure_exactly_one (status : CVStatus) (score : ℚ)
    (q : TerminalQueues) (res : String) :
    (status = CVStatus.review_required →
      destinationQueue status score = Queue.review) ∧
    (status ≠ CVStatus.review_required → score < 8 →
      destinationQueue status score = Queue.review) ∧
    (status ≠ CVStatus.review_required → ¬ score < 8 →
      destinationQueue status score = Queue.completed) ∧
    ((pushResult q status score res).review.length +
      (pushResult q status score res).completed.length =
      q.review.length + q.completed.length + 1) ∧
    ((pushResult q status score res).review = res :: q.review ∧
        (pushResult q status score res).completed = q.completed ∨
      (pushResult q status score res).completed = res :: q.completed ∧
        (pushResult q status score res).review = q.review) := by
  unfold pushResult destinationQueue
  rcases status <;> by_cases h : score < 8 <;> simp [h] <;> omega

/-- C1 witness: a task with composite score 9.5 whose cross-validation flags
disagreement routes to review. -/
theorem routing_pure_exactly_one_witness :
    destinationQueue CVStatus.review_required (19/2) = Queue.review :=
  (routing_pure_exactly_one CVStatus.review_required (19/2) ⟨[], []⟩ "r").1 rfl

/-- Auxiliary: a detector flag is unvalidated exactly when no validator
finding shares its line number. -/
theorem unvalidated_iff (vl : List Finding) (flag : Finding) :
    validatedFlag vl flag = false ↔
      ∀ vf ∈ vl, vf.line_number ≠ flag.line_number := by
  rw [← Bool.not_eq_true]
  simp [validatedFlag, List.any_eq_true]

/-- Auxiliary: membership in the unmatched-flag list. -/
theorem mem_unmatchedFlags (dr vr : AgentRes) (flag : Finding) :
    flag ∈ unmatchedFlags dr vr ↔
      flag ∈ dr.findings.getD [] ∧
        ∀ vf ∈ vr.findings.getD [], vf.line_number ≠ flag.line_number := by
  rw [unmatchedFlags, List.mem_filter]
  constructor
  · rintro ⟨h1, h2⟩
    refine ⟨h1, (unvalidated_iff _ _).mp ?_⟩
    simpa using h2
  · rintro ⟨h1, h2⟩
    exact ⟨h1, by simpa using (unvalidated_iff _ _).mpr h2⟩

/-- Auxiliary: the unmatched-flag list is empty exactly when every detector
finding is matched by a validator finding at the same line. -/
theorem isEmpty_unmatched_iff (dr vr : AgentRes) :
    (unmatchedFlags dr vr).isEmpty = true ↔
      ∀ flag ∈ dr.findings.getD [], ∃ vf ∈ vr.findings.getD [],
        vf.line_number = flag.line_number := by
  rw [List.isEmpty_iff, List.eq_nil_iff_forall_not_mem]
  constructor
  · intro h flag hmem
    by_contra hnone
    push_neg at hnone
    exact h flag ((mem_unmatchedFlags dr vr flag).mpr ⟨hmem, hnone⟩)
  · intro h flag hmem
    obtain ⟨h1, h2⟩ := (mem_unmatchedFlags dr vr flag).mp hmem
    obtain ⟨vf, hvf, heq⟩ := h flag h1
    exact h2 vf hvf heq

/-- Auxiliary: the result of `thermopylae_cross_validation` when both agent
results are present, with the status expressed via the list of unvalidated
detector flags. -/
theorem thermopylae_some_spec (dr vr : AgentRes) :
    thermopylae_cross_validation (some dr) (some vr) =
      { status := if (unmatchedFlags dr vr).isEmpty then CVStatus.clear
          else CVStatus.review_required
        disagreements := (unmatchedFlags dr vr).map
          (fun flag => ⟨flag.line_number, flag.category⟩) } := by
  simp only [thermopylae_cross_validation, unmatchedFlags]
  have hm : ∀ (l : List Finding) (f : Finding → Disagreement),
      (l.map f).isEmpty = l.isEmpty := by
    intro l f; cases l <;> rfl
  rw [hm]

/-- C3: the cross-validation returns `review_required` iff some detector
finding's line number is matched by no validator finding (with one
disagreement entry per unmatched detector finding), `clear` iff every
detector finding is matched, and `incomplete` exactly when either agent's
result is missing. -/
theorem thermopylae_status_correct (d v : Option AgentRes) :
    ((thermopylae_cross_validation d v).status = CVStatus.incomplete ↔
      d = none ∨ v = none) ∧
    (∀ dr vr, d = some dr → v = some vr →
      (((thermopylae_cross_validation d v).status = CVStatus.review_required ↔
          ∃ flag ∈ dr.findings.getD [], ∀ vf ∈ vr.findings.getD [],
            vf.line_number ≠ flag.line_number) ∧
        ((thermopylae_cross_validation d v).status = CVStatus.clear ↔
          ∀ flag ∈ dr.findings.getD [], ∃ vf ∈ vr.findings.getD [],
            vf.line_number = flag.line_number) ∧
        (thermopylae_cross_validation d v).disagreements =
          ((dr.findings.getD []).filter
            (fun flag => ¬ validatedFlag (vr.findings.getD []) flag)).map
            (fun flag => ⟨flag.line_number, flag.category⟩))) := by
  constructor
  · rcases d with _ | dr <;> rcases v with _ | vr
    · simp [thermopylae_cross_validation]
    · simp [thermopylae_cross_validation]
    · simp [thermopylae_cross_validation]
    · rw [thermopylae_some_spec]
      dsimp only
      constructor
      · intro h
        exfalso
        by_cases hemp : (unmatchedFlags dr vr).isEmpty = true
        · rw [if_pos hemp] at h; exact CVStatus.noConfusion h
        · rw [if_neg hemp] at h; exact CVStatus.noConfusion h
      · rintro (h | h) <;> exact Option.noConfusion h
  · rintro dr vr rfl rfl
    rw [thermopylae_some_spec]
    refine ⟨?_, ?_, rfl⟩
    · dsimp only
      by_cases hemp : (unmatchedFlags dr vr).isEmpty = true
      · rw [if_pos hemp]
        constructor
        · intro h; exact CVStatus.noConfusion h
        · rintro ⟨flag, h1, h2⟩
          have hmem := (mem_unmatchedFlags dr vr flag).mpr ⟨h1, h2⟩
          rw [List.isEmpty_iff] at hemp
          rw [hemp] at hmem
          exact absurd hmem (List.not_mem_nil flag)
      · rw [if_neg hemp]
        constructor
        · intro _
          rw [Bool.not_eq_true, List.isEmpty_eq_false_iff_exists_mem] at hemp
          obtain ⟨flag, hflag⟩ := hemp
          exact ⟨flag, (mem_unmatchedFlags dr vr flag).mp hflag⟩
        · intro _; rfl
    · dsimp only
      by_cases hemp : (unmatchedFlags dr vr).isEmpty = true
      · rw [if_pos hemp]
        constructor
        · intro _; exact (isEmpty_unmatched_iff dr vr).mp hemp
        · intro _; rfl
      · rw [if_neg hemp]
        constructor
        · intro h; exact CVStatus.noConfusion h
        · intro hall
          exact absurd ((isEmpty_unmatched_iff dr vr).mpr hall) hemp

/-- C3 witness: a detector finding at line 12 with no validator finding at
line 12 yields status `review_required`. -/
theorem thermopylae_status_correct_witness :
    (thermopylae_cross_validation (some c3d) (some c3v)).status =
      CVStatus.review_required := by
  have h := ((thermopylae_status_correct (some c3d) (some c3v)).2 c3d c3v rfl rfl).1
  exact h.mpr (by decide)

/-- C4 counterexample: on a waves map whose `emotional_intelligence` slot
holds the error stub of a failed agent, the code's score is 1.0 (the failed
agent's dimension contributes the default confidence 0.5 scaled to 5.0,
weighted 0.20), while the claim's reading (failed agent contributes 0) gives
0 — so the claim as stated is false. -/
theorem tdai_failed_agent_counterexample :
    calculate_tdai_score failedEIWaves = 1 ∧
    claimed_tdai_score failedEIWaves = 0 ∧
    calculate_tdai_score failedEIWaves ≠ claimed_tdai_score failedEIWaves := by
  refine ⟨?_, ?_, ?_⟩ <;>
    · simp only [calculate_tdai_score, claimed_tdai_score, failedEIWaves, confDim,
        practicalDim, claimedConfDim, claimedPracticalDim, String.reduceEq]
      norm_num

/-- Auxiliary: the code's confidence dimension, by cases. -/
theorem confDim_eq_amended (o : Option AgentRes) : confDim o = amendedConfDim o := by
  rcases o with _ | r
  · rfl
  · rcases hr : r.confidence with _ | c
    · simp only [confDim, amendedConfDim, hr, Option.getD_none]
      norm_num
    · simp only [confDim, amendedConfDim, hr, Option.getD_some]

/-- Auxiliary: the code's practical-application dimension, by cases. -/
theorem practicalDim_eq_amended (o : Option AgentRes) :
    practicalDim o = amendedPracticalDim o := by
  rcases o with _ | r
  · rfl
  · rcases hr : r.findings with _ | l
    · simp only [practicalDim, amendedPracticalDim, hr, Option.getD_none,
        List.length_nil]
      norm_num
    · simp only [practicalDim, amendedPracticalDim, hr, Option.getD_some]

/-- C4 amended: the composite score is the weighted sum over the seven fixed
dimensions with weights 0.20, 0.20, 0.15, 0.10, 0.10, 0.15, 0.10 (summing to
1), clamped to at most 10, where each confidence dimension is the reported
confidence scaled to 0–10 when present, 5.0 (the default confidence 0.5
scaled) when the agent is present without a confidence value — including
failed agents recorded as error stubs — and 0 when the agent is missing;
practical application is max(0, 10 − 0.5 × gaps finding count) with an
absent findings key read as empty (so a failed gaps agent scores 10), and 0
when the gaps agent is missing. -/
theorem tdai_score_amended (w : Waves) :
    calculate_tdai_score w = min 10 (amendedWeighted w) ∧
    calculate_tdai_score w ≤ 10 ∧
    ((20 : ℚ)/100 + 20/100 + 15/100 + 10/100 + 10/100 + 15/100 + 10/100 = 1) := by
  refine ⟨?_, ?_, by norm_num⟩
  · simp only [calculate_tdai_score, amendedWeighted, confDim_eq_amended,
      practicalDim_eq_amended]
    congr 1
    ring
  · simp only [calculate_tdai_score]
    exact min_le_left _ _

/-- Auxiliary: a wave dimension value is never negative when the recorded
confidence is nonnegative. -/
theorem confDim_nonneg (o : Option AgentRes)
    (h : ∀ r c, o = some r → r.confidence = some c → 0 ≤ c) : 0 ≤ confDim o := by
  rcases o with _ | r
  · exact le_refl 0
  · rcases hr : r.confidence with _ | c
    · simp only [confDim, hr, Option.getD_none]
      norm_num
    · have hc := h r c rfl hr
      simp only [confDim, hr, Option.getD_some]
      positivity

/-- Auxiliary: the practical-application dimension is never negative. -/
theorem practicalDim_nonneg (o : Option AgentRes) : 0 ≤ practicalDim o := by
  rcases o with _ | r
  · exact le_refl 0
  · exact le_max_left 0 _

/-- C7: removing (disabling) any single wave-2 agent never increases the
composite score, for every waves map whose recorded confidences are
nonnegative (agents report confidences in 0.0–1.0). -/
theorem score_monotone_remove_agent (w : Waves) (name : String)
    (h : ConfNonneg w) :
    calculate_tdai_score (removeAgent2 w name) ≤ calculate_tdai_score w := by
  have hw2 : ∀ s, (removeAgent2 w name).w2 s = if s = name then none else w.w2 s :=
    fun s => rfl
  have hconf : ∀ s, confDim ((removeAgent2 w name).w2 s) ≤ confDim (w.w2 s) := by
    intro s
    rw [hw2]
    split
    · exact confDim_nonneg _ (fun r c hr hc => h s r c hr hc)
    · exact le_rfl
  have hpract : ∀ s, practicalDim ((removeAgent2 w name).w2 s) ≤ practicalDim (w.w2 s) := by
    intro s
    rw [hw2]
    split
    · exact practicalDim_nonneg _
    · exact le_rfl
  have h1 := hconf "emotional_intelligence"
  have h2 := hconf "somatic_awareness"
  have h3 := hconf "research_connector"
  have h4 := hconf "cultural_context"
  have h5 := hpract "gaps_identifier"
  unfold calculate_tdai_score
  have hw1 : (removeAgent2 w name).w1 = w.w1 := rfl
  have hw3 : (removeAgent2 w name).w3 = w.w3 := rfl
  rw [hw1, hw3]
  exact min_le_min le_rfl (by linarith)

/-- C7 witness: removing the reporting agent from a concrete waves map does
not increase the score. -/
theorem score_monotone_remove_agent_witness :
    calculate_tdai_score (removeAgent2 c7Waves "emotional_intelligence") ≤
      calculate_tdai_score c7Waves := by
  apply score_monotone_remove_agent
  intro s r c hr hc
  have hr' : (if s = "emotional_intelligence"
      then some (⟨some (9/10), none⟩ : AgentRes) else none) = some r := hr
  by_cases hs : s = "emotional_intelligence"
  · rw [if_pos hs] at hr'
    cases hr'
    have hc' : some ((9 : ℚ)/10) = some c := hc
    rw [← Option.some.inj hc']
    norm_num
  · rw [if_neg hs] at hr'
    exact Option.noConfusion hr'

/-- Auxiliary: effect of updating one processing list on the summed task
count. -/
theorem sum_count_update_eq {n : Nat} (procs : Fin n → List Task) (i : Fin n)
    (l : List Task) (t : Task) :
    (∑ k : Fin n, ((Function.update procs i l) k).count t) + (procs i).count t
      = (∑ k : Fin n, (procs k).count t) + l.count t := by
  have hfun : ∀ k, ((Function.update procs i l) k).count t
      = Function.update (fun k => (procs k).count t) i (l.count t) k := by
    intro k
    by_cases hk : k = i
    · subst hk
      rw [Function.update_same, Function.update_same]
    · rw [Function.update_noteq hk, Function.update_noteq hk]
  rw [Finset.sum_congr rfl (fun k _ => hfun k)]
  rw [Finset.sum_update_of_mem (Finset.mem_univ i)]
  rw [← Finset.sum_erase_add Finset.univ _ (Finset.mem_univ i)]
  rw [Finset.sdiff_singleton_eq_erase]
  omega

/-- Auxiliary: no atomic store operation ever increases the number of copies
of a task held by the pending list and the processing lists together. -/
theorem step_totalCount_le {n : Nat} {s s' : MState n} (h : Step s s') (t : Task) :
    totalCount s' t ≤ totalCount s t := by
  cases h with
  | claim i t0 rest hp =>
    unfold totalCount
    dsimp only
    have hsum := sum_count_update_eq s.procs i (t0 :: s.procs i) t
    have hpc : s.pending.count t = rest.count t + ([t0] : List Task).count t := by
      rw [hp, List.count_append]
    have hcons : (t0 :: s.procs i).count t
        = ([t0] : List Task).count t + (s.procs i).count t := by
      show (([t0] : List Task) ++ s.procs i).count t = _
      rw [List.count_append]
    omega
  | finish i t0 hmem =>
    unfold totalCount
    dsimp only
    have hsum := sum_count_update_eq s.procs i ((s.procs i).erase t0) t
    have herase : ((s.procs i).erase t0).count t ≤ (s.procs i).count t :=
      (List.erase_sublist t0 (s.procs i)).count_le t
    omega
  | drain j t0 init hpj =>
    unfold totalCount
    dsimp only
    have hsum := sum_count_update_eq s.procs j init t
    have hpc : (s.procs j).count t = init.count t + ([t0] : List Task).count t := by
      rw [hpj, List.count_append]
    have hcons : (t0 :: s.pending).count t
        = ([t0] : List Task).count t + s.pending.count t := by
      show (([t0] : List Task) ++ s.pending).count t = _
      rw [List.count_append]
    omega
  | deactivate j =>
    exact le_refl _

/-- Auxiliary: the total task count never increases along any reachable
execution. -/
theorem reachable_totalCount_le {n : Nat} {s0 s : MState n}
    (h : Reachable s0 s) (t : Task) : totalCount s t ≤ totalCount s0 t := by
  induction h with
  | refl => exact le_refl _
  | tail _ hstep ih => exact le_trans (step_totalCount_le hstep t) ih

/-- C2: in every state reachable from an initial state holding at most one
copy of each task, a task is owned by at most one instance — it never
appears in two distinct processing lists, because the claim step
(`brpoplpush`) moves a task from pending to the claiming instance's
processing list in one indivisible operation. -/
theorem at_most_one_owner {n : Nat} (s0 s : MState n)
    (hreach : Reachable s0 s) (hinv : ∀ t, totalCount s0 t ≤ 1)
    (t : Task) (i j : Fin n)
    (hi : t ∈ s.procs i) (hj : t ∈ s.procs j) : i = j := by
  by_contra hne
  have hcnt : totalCount s t ≤ 1 :=
    le_trans (reachable_totalCount_le hreach t) (hinv t)
  have hpair : (s.procs i).count t + (s.procs j).count t
      ≤ ∑ k : Fin n, (s.procs k).count t := by
    have hsub := Finset.sum_le_sum_of_subset
      (Finset.subset_univ ({i, j} : Finset (Fin n)))
      (f := fun k => (s.procs k).count t)
    rwa [Finset.sum_pair hne] at hsub
  have hci : 1 ≤ (s.procs i).count t := List.one_le_count_iff.mpr hi
  have hcj : 1 ≤ (s.procs j).count t := List.one_le_count_iff.mpr hj
  unfold totalCount at hcnt
  omega

/-- C2 witness: a concrete two-instance execution in which instance 0 claims
the single pending task. -/
theorem at_most_one_owner_witness : (0 : Fin 2) = 0 := by
  have hstep : Step c2s0 c2s1 := Step.claim c2s0 0 "t1" [] rfl
  refine at_most_one_owner c2s0 c2s1 (Relation.ReflTransGen.single hstep)
    ?_ "t1" 0 0 ?_ ?_
  · intro t
    show (["t1"] : List Task).count t
        + ∑ i : Fin 2, (([] : List Task).count t) ≤ 1
    simp only [List.count_nil, Finset.sum_const_zero, Nat.add_zero]
    by_cases h : t = "t1" <;> simp [h]
  · show "t1" ∈ Function.update (fun _ => ([] : List Task)) 0 ["t1"] 0
    rw [Function.update_same]
    exact List.mem_singleton.mpr rfl
  · show "t1" ∈ Function.update (fun _ => ([] : List Task)) 0 ["t1"] 0
    rw [Function.update_same]
    exact List.mem_singleton.mpr rfl

/-- Auxiliary: a drain iteration on an empty processing list is a no-op. -/
theorem drainStep_nil {n : Nat} (s : MState n) (j : Fin n)
    (h : s.procs j = []) : drainStep s j = s := by
  simp [drainStep, h]

/-- Auxiliary: a drain iteration on a nonempty processing list moves its
tail element to the head of pending. -/
theorem drainStep_concat {n : Nat} (s : MState n) (j : Fin n)
    (init : List Task) (t : Task) (h : s.procs j = init ++ [t]) :
    drainStep s j = { s with pending := t :: s.pending,
                             procs := Function.update s.procs j init } := by
  unfold drainStep
  rw [h, List.getLast?_concat, List.dropLast_concat]

/-- Auxiliary: draining as many times as the processing list is long empties
it into the head of pending, preserving order, and touches nothing else. -/
theorem drainN_len_spec {n : Nat} :
    ∀ (k : Nat) (s : MState n) (j : Fin n), (s.procs j).length = k →
      (drainN s j k).pending = s.procs j ++ s.pending ∧
      (drainN s j k).procs = Function.update s.procs j [] ∧
      (drainN s j k).active = s.active := by
  intro k
  induction k with
  | zero =>
    intro s j h
    have hnil : s.procs j = [] := List.eq_nil_of_length_eq_zero h
    refine ⟨by simp [drainN, hnil], ?_, rfl⟩
    show s.procs = Function.update s.procs j []
    rw [← hnil, Function.update_eq_self]
  | succ k ih =>
    intro s j h
    obtain ⟨init, t, hjt⟩ : ∃ l a, s.procs j = l ++ [a] := by
      rcases List.eq_nil_or_concat (s.procs j) with hnil | ⟨L, b, hcat⟩
      · rw [hnil] at h
        exact absurd h (by simp)
      · exact ⟨L, b, by rw [hcat, List.concat_eq_append]⟩
    have hstep : drainN s j (k + 1) = drainN (drainStep s j) j k := rfl
    rw [hstep, drainStep_concat s j init t hjt]
    have hlen : ((Function.update s.procs j init) j).length = k := by
      rw [Function.update_same]
      have hl := congrArg List.length hjt
      simp at hl
      omega
    obtain ⟨h1, h2, h3⟩ := ih
      { s with pending := t :: s.pending, procs := Function.update s.procs j init }
      j hlen
    refine ⟨?_, ?_, h3⟩
    · rw [h1]
      show Function.update s.procs j init j ++ (t :: s.pending)
          = s.procs j ++ s.pending
      rw [Function.update_same, hjt, List.append_assoc, List.singleton_append]
    · rw [h2]
      show Function.update (Function.update s.procs j init) j []
          = Function.update s.procs j []
      rw [Function.update_idem]

/-- Auxiliary: a single drain iteration preserves the total count of every
task. -/
theorem drainStep_totalCount {n : Nat} (s : MState n) (j : Fin n) (t : Task) :
    totalCount (drainStep s j) t = totalCount s t := by
  rcases List.eq_nil_or_concat (s.procs j) with hnil | ⟨init, t0, hcat⟩
  · rw [drainStep_nil s j hnil]
  · have hjt : s.procs j = init ++ [t0] := by rw [hcat, List.concat_eq_append]
    rw [drainStep_concat s j init t0 hjt]
    unfold totalCount
    dsimp only
    have hsum := sum_count_update_eq s.procs j init t
    have hpc : (s.procs j).count t = init.count t + ([t0] : List Task).count t := by
      rw [hjt, List.count_append]
    have hcons : (t0 :: s.pending).count t
        = ([t0] : List Task).count t + s.pending.count t := by
      show (([t0] : List Task) ++ s.pending).count t = _
      rw [List.count_append]
    omega

/-- Auxiliary: any number of drain iterations preserves the total count of
every task. -/
theorem drainN_totalCount {n : Nat} (j : Fin n) (t : Task) :
    ∀ (k : Nat) (s : MState n), totalCount (drainN s j k) t = totalCount s t := by
  intro k
  induction k with
  | zero => intro s; rfl
  | succ k ih =>
    intro s
    exact (ih (drainStep s j)).trans (drainStep_totalCount s j t)

/-- Auxiliary: draining an empty processing list any number of times does
nothing. -/
theorem drainN_of_empty {n : Nat} (j : Fin n) :
    ∀ (k : Nat) (s : MState n), s.procs j = [] → drainN s j k = s := by
  intro k
  induction k with
  | zero => intro s _; rfl
  | succ k ih =>
    intro s h
    show drainN (drainStep s j) j k = s
    rw [drainStep_nil s j h]
    exact ih s h

/-- Auxiliary: drain iterations compose. -/
theorem drainN_add {n : Nat} (j : Fin n) :
    ∀ (a b : Nat) (s : MState n),
      drainN s j (a + b) = drainN (drainN s j a) j b := by
  intro a
  induction a with
  | zero =>
    intro b s
    rw [Nat.zero_add]
    rfl
  | succ a ih =>
    intro b s
    have hab : a + 1 + b = (a + b) + 1 := by omega
    rw [hab]
    show drainN (drainStep s j) j (a + b) = _
    rw [ih b (drainStep s j)]
    rfl

/-- Auxiliary: drain iterations beyond the length of the processing list
are no-ops. -/
theorem drainN_overdrain {n : Nat} (s : MState n) (j : Fin n) (m : Nat) :
    drainN s j ((s.procs j).length + m) = drainN s j (s.procs j).length := by
  rw [drainN_add]
  apply drainN_of_empty
  have h := (drainN_len_spec (s.procs j).length s j rfl).2.1
  rw [h, Function.update_same]

/-- C5: failover moves every task of the dead instance's processing list
back onto the shared pending queue exactly once (its count in the new
pending list is its old processing-list count plus its old pending count),
one atomic list-move at a time; a drain iteration on an already-empty list
is a no-op; any number of interleaved drain iterations — e.g. two peers
draining the same dead instance concurrently — preserves the total count of
every task, and iterations beyond the list length change nothing, so
double-drain introduces no duplicates; finally the dead instance is removed
from the active set. -/
theorem failover_drain_exact {n : Nat} (s : MState n) (j : Fin n) :
    (s.procs j = [] → drainStep s j = s) ∧
    (handle_orchestrator_failure s j).pending = s.procs j ++ s.pending ∧
    (handle_orchestrator_failure s j).procs j = [] ∧
    (∀ i, i ≠ j → (handle_orchestrator_failure s j).procs i = s.procs i) ∧
    (∀ t, (handle_orchestrator_failure s j).pending.count t
        = (s.procs j).count t + s.pending.count t) ∧
    (∀ k t, totalCount (drainN s j k) t = totalCount s t) ∧
    (∀ m, drainN s j ((s.procs j).length + m) = drainN s j (s.procs j).length) ∧
    j ∉ (handle_orchestrator_failure s j).active := by
  obtain ⟨h1, h2, h3⟩ := drainN_len_spec (s.procs j).length s j rfl
  have hpend : (handle_orchestrator_failure s j).pending = s.procs j ++ s.pending := h1
  refine ⟨fun h => drainStep_nil s j h, hpend, ?_, ?_, ?_,
    fun k t => drainN_totalCount j t k s, fun m => drainN_overdrain s j m, ?_⟩
  · show (drainN s j (s.procs j).length).procs j = []
    rw [h2, Function.update_same]
  · intro i hij
    show (drainN s j (s.procs j).length).procs i = s.procs i
    rw [h2, Function.update_noteq hij]
  · intro t
    rw [hpend, List.count_append]
  · show j ∉ (drainN s j (s.procs j).length).active.erase j
    exact Finset.not_mem_erase j _

/-- C5 witness: the no-op and exactly-once conclusions at concrete states. -/
theorem failover_drain_exact_witness :
    drainStep c5sEmpty 0 = c5sEmpty ∧
    (handle_orchestrator_failure c5s 0).pending = c5s.procs 0 ++ c5s.pending :=
  ⟨(failover_drain_exact c5sEmpty 0).1 rfl, (failover_drain_exact c5s 0).2.1⟩

/-- C10: after a graceful shutdown the instance's processing list is empty,
every task it held has been moved to the shared pending queue and none
dropped (counts add up), the instance's id has been removed from the active
set, and no other instance's processing list is touched. -/
theorem shutdown_no_task_loss {n : Nat} (s : MState n) (i : Fin n) :
    (shutdown s i).procs i = [] ∧
    (shutdown s i).pending = s.procs i ++ s.pending ∧
    (∀ t, (shutdown s i).pending.count t
        = (s.procs i).count t + s.pending.count t) ∧
    i ∉ (shutdown s i).active ∧
    (∀ j, j ≠ i → (shutdown s i).procs j = s.procs j) := by
  obtain ⟨h1, h2, h3⟩ := drainN_len_spec
    ((({ s with active := s.active.erase i } : MState n)).procs i).length
    { s with active := s.active.erase i } i rfl
  refine ⟨?_, h1, ?_, ?_, ?_⟩
  · show (shutdown s i).procs i = []
    unfold shutdown
    rw [h2, Function.update_same]
  · intro t
    have : (shutdown s i).pending = s.procs i ++ s.pending := h1
    rw [this, List.count_append]
  · show i ∉ (shutdown s i).active
    unfold shutdown
    rw [h3]
    exact Finset.not_mem_erase i _
  · intro j hji
    show (shutdown s i).procs j = s.procs j
    unfold shutdown
    rw [h2, Function.update_noteq hji]

/-- C10 witness: the untouched-peer and no-loss conclusions at a concrete
state. -/
theorem shutdown_no_task_loss_witness :
    (shutdown c10s 0).procs 1 = c10s.procs 1 ∧
    (shutdown c10s 0).pending = c10s.procs 0 ++ c10s.pending :=
  ⟨(shutdown_no_task_loss c10s 0).2.2.2.2 1 (by decide),
   (shutdown_no_task_loss c10s 0).2.1⟩

/-- Auxiliary: unfolding of the per-wave loop on an unloaded agent. -/
theorem runWaveAgents_cons_none (reg : Registry) (tr : String) (w : Nat)
    (name : String) (rest : List String) (ctx : Ctx) (h : reg name = none) :
    runWaveAgents reg tr w (name :: rest) ctx = runWaveAgents reg tr w rest ctx := by
  simp [runWaveAgents, h]

/-- Auxiliary: unfolding of the per-wave loop on an agent that raises (its
error stub is not merged into the context). -/
theorem runWaveAgents_cons_err (reg : Registry) (tr : String) (w : Nat)
    (name : String) (rest : List String) (ctx : Ctx)
    (analyze : String → Ctx → Option AgentRes)
    (h : reg name = some analyze) (he : analyze tr ctx = none) :
    runWaveAgents reg tr w (name :: rest) ctx =
      ((runWaveAgents reg tr w rest ctx).1,
        ⟨w, name, ctx⟩ :: (runWaveAgents reg tr w rest ctx).2) := by
  simp [runWaveAgents, h, he]

/-- Auxiliary: unfolding of the per-wave loop on an agent that succeeds (its
result is merged into the context before the rest of the wave runs). -/
theorem runWaveAgents_cons_ok (reg : Registry) (tr : String) (w : Nat)
    (name : String) (rest : List String) (ctx : Ctx)
    (analyze : String → Ctx → Option AgentRes) (r : AgentRes)
    (h : reg name = some analyze) (hr : analyze tr ctx = some r) :
    runWaveAgents reg tr w (name :: rest) ctx =
      ((runWaveAgents reg tr w rest (ctx ++ [⟨w, name, r⟩])).1,
        ⟨w, name, ctx⟩ ::
          (runWaveAgents reg tr w rest (ctx ++ [⟨w, name, r⟩])).2) := by
  simp [runWaveAgents, h, hr]

/-- Auxiliary: structure of one wave's run — the context only grows by
entries of this wave, and every invoked agent sees the wave-start context
followed by some prefix of the entries this wave eventually adds. -/
theorem runWaveAgents_spec (reg : Registry) (tr : String) (w : Nat) :
    ∀ (names : List String) (ctx : Ctx),
      ∃ Δ, (runWaveAgents reg tr w names ctx).1 = ctx ++ Δ ∧
        (∀ x ∈ Δ, x.wave = w) ∧
        (∀ e ∈ (runWaveAgents reg tr w names ctx).2,
          e.wave = w ∧ ∃ Δ₁ suf, e.seen = ctx ++ Δ₁ ∧ Δ = Δ₁ ++ suf) := by
  intro names
  induction names with
  | nil =>
    intro ctx
    exact ⟨[], by simp [runWaveAgents], by simp, by simp [runWaveAgents]⟩
  | cons name rest ih =>
    intro ctx
    rcases hreg : reg name with _ | analyze
    · rw [runWaveAgents_cons_none reg tr w name rest ctx hreg]
      exact ih ctx
    · rcases hres : analyze tr ctx with _ | r
      · rw [runWaveAgents_cons_err reg tr w name rest ctx analyze hreg hres]
        obtain ⟨Δ, h1, h2, h3⟩ := ih ctx
        refine ⟨Δ, h1, h2, ?_⟩
        intro e he
        rcases List.mem_cons.mp he with rfl | he
        · exact ⟨rfl, [], Δ, by simp, by simp⟩
        · exact h3 e he
      · rw [runWaveAgents_cons_ok reg tr w name rest ctx analyze r hreg hres]
        obtain ⟨Δ, h1, h2, h3⟩ := ih (ctx ++ [⟨w, name, r⟩])
        refine ⟨⟨w, name, r⟩ :: Δ, ?_, ?_, ?_⟩
        · rw [h1, List.append_assoc, List.singleton_append]
        · intro x hx
          rcases List.mem_cons.mp hx with rfl | hx
          · rfl
          · exact h2 x hx
        · intro e he
          rcases List.mem_cons.mp he with rfl | he
          · exact ⟨rfl, [], ⟨w, name, r⟩ :: Δ, by simp, rfl⟩
          · obtain ⟨hw, Δ₁, suf, hseen, hΔ⟩ := h3 e he
            exact ⟨hw, ⟨w, name, r⟩ :: Δ₁, suf,
              by rw [hseen, List.append_assoc, List.singleton_append],
              by rw [hΔ]; rfl⟩

/-- Auxiliary: unfolding of the wave list loop. -/
theorem runWaveList_cons (reg : Registry) (tr : String) (w : Nat)
    (names : List String) (ws : List (Nat × List String)) (ctx : Ctx) :
    runWaveList reg tr ((w, names) :: ws) ctx =
      ((runWaveList reg tr ws (runWaveAgents reg tr w names ctx).1).1,
        (runWaveAgents reg tr w names ctx).2 ++
          (runWaveList reg tr ws (runWaveAgents reg tr w names ctx).1).2) := by
  simp [runWaveList]

/-- Auxiliary: structure of the full wave-sequenced run.  Under a sorted wave
list and a wave-start context whose entries all precede the remaining waves,
every invoked agent's seen context contains only entries of waves up to its
own, the seen context is an initial segment of the final context whose
complement holds only later-or-equal-wave entries, and the trace is ordered
by wave. -/
theorem runWaveList_spec (reg : Registry) (tr : String) :
    ∀ (wl : List (Nat × List String)) (ctx : Ctx),
      wl.Pairwise (fun a b => a.1 ≤ b.1) →
      (∀ p ∈ wl, ∀ x ∈ ctx, x.wave ≤ p.1) →
      ∃ Δ, (runWaveList reg tr wl ctx).1 = ctx ++ Δ ∧
        (∀ x ∈ Δ, ∃ p ∈ wl, x.wave = p.1) ∧
        ((runWaveList reg tr wl ctx).2.Pairwise (fun a b => a.wave ≤ b.wave)) ∧
        (∀ e ∈ (runWaveList reg tr wl ctx).2,
          (∃ p ∈ wl, e.wave = p.1) ∧
          (∀ x ∈ e.seen, x.wave ≤ e.wave) ∧
          (∃ suf, (runWaveList reg tr wl ctx).1 = e.seen ++ suf ∧
            ∀ x ∈ suf, e.wave ≤ x.wave)) := by
  intro wl
  induction wl with
  | nil =>
    intro ctx _ _
    exact ⟨[], by simp [runWaveList], by simp, by simp [runWaveList],
      by simp [runWaveList]⟩
  | cons p ws ih =>
    obtain ⟨w, names⟩ := p
    intro ctx hsorted hctx
    have hhead : ∀ b ∈ ws, w ≤ b.1 := by
      intro b hb
      exact (List.pairwise_cons.mp hsorted).1 b hb
    have htail : ws.Pairwise (fun a b => a.1 ≤ b.1) :=
      (List.pairwise_cons.mp hsorted).2
    have hctxw : ∀ x ∈ ctx, x.wave ≤ w :=
      fun x hx => hctx (w, names) (List.mem_cons_self _ _) x hx
    obtain ⟨Δw, hw1, hw2, hw3⟩ := runWaveAgents_spec reg tr w names ctx
    have hctx2 : ∀ p ∈ ws, ∀ x ∈ (runWaveAgents reg tr w names ctx).1,
        x.wave ≤ p.1 := by
      intro p hp x hx
      rw [hw1] at hx
      rcases List.mem_append.mp hx with hx | hx
      · exact hctx p (List.mem_cons_of_mem _ hp) x hx
      · rw [hw2 x hx]
        exact hhead p hp
    obtain ⟨Δs, hs1, hs2, hspw, hs4⟩ :=
      ih (runWaveAgents reg tr w names ctx).1 htail hctx2
    rw [runWaveList_cons]
    refine ⟨Δw ++ Δs, ?_, ?_, ?_, ?_⟩
    · dsimp only
      rw [hs1, hw1, List.append_assoc]
    · intro x hx
      rcases List.mem_append.mp hx with hx | hx
      · exact ⟨(w, names), List.mem_cons_self _ _, hw2 x hx⟩
      · obtain ⟨p, hp, hpx⟩ := hs2 x hx
        exact ⟨p, List.mem_cons_of_mem _ hp, hpx⟩
    · dsimp only
      rw [List.pairwise_append]
      refine ⟨?_, hspw, ?_⟩
      · apply List.pairwise_of_forall_mem_list
        intro a ha b hb
        rw [(hw3 a ha).1, (hw3 b hb).1]
      · intro a ha b hb
        rw [(hw3 a ha).1]
        obtain ⟨p, hp, hpb⟩ := (hs4 b hb).1
        rw [hpb]
        exact hhead p hp
    · intro e he
      dsimp only at he
      rcases List.mem_append.mp he with he | he
      · obtain ⟨hew, Δ₁, suf, hseen, hΔ⟩ := hw3 e he
        refine ⟨⟨(w, names), List.mem_cons_self _ _, hew⟩, ?_, ?_⟩
        · intro x hx
          rw [hseen] at hx
          rcases List.mem_append.mp hx with hx | hx
          · rw [hew]
            exact hctxw x hx
          · rw [hew, hw2 x (by rw [hΔ]; exact List.mem_append_left _ hx)]
        · refine ⟨suf ++ Δs, ?_, ?_⟩
          · dsimp only
            rw [hs1, hw1, hΔ, hseen]
            simp [List.append_assoc]
          · intro x hx
            rcases List.mem_append.mp hx with hx | hx
            · rw [hew, hw2 x (by rw [hΔ]; exact List.mem_append_right _ hx)]
            · obtain ⟨p, hp, hpx⟩ := hs2 x hx
              rw [hew, hpx]
              exact hhead p hp
      · obtain ⟨⟨p, hp, hpe⟩, hseen, suf, hsuf1, hsuf2⟩ := hs4 e he
        exact ⟨⟨p, List.mem_cons_of_mem _ hp, hpe⟩, hseen,
          suf, hsuf1, hsuf2⟩

/-- C6 counterexample: with the first two wave-2 agents loaded, the second
(`somatic_awareness`) is invoked with a context that already contains the
same-wave result of the first (`emotional_intelligence`) — the code merges
each agent's result into the shared context inside the per-agent loop, so
agents within one wave do see earlier same-wave results, contrary to the
claim. -/
theorem wave_intrawave_leak_counterexample :
    (process_task_through_waves cexReg "t").2 =
      [⟨2, "emotional_intelligence", []⟩,
        ⟨2, "somatic_awareness", [⟨2, "emotional_intelligence", r0⟩]⟩] ∧
    ¬ (∀ e ∈ (process_task_through_waves cexReg "t").2,
        ∀ x ∈ e.seen, x.wave ≠ e.wave) := by
  constructor
  · decide
  · intro h
    exact h ⟨2, "somatic_awareness", [⟨2, "emotional_intelligence", r0⟩]⟩
      (by decide) ⟨2, "emotional_intelligence", r0⟩ (by decide) rfl

/-- C6 amended: waves run strictly in order 1, 2, 3, 4 with a barrier
between waves (the invocation trace is ordered by wave number); every
invoked agent's context contains all results completed in earlier waves and
only entries of waves up to its own — never anything from a later wave —
but, within one wave, it additionally contains the results of same-wave
agents that completed earlier in the wave's agent order. -/
theorem wave_ordering_amended (reg : Registry) (t : String) :
    (∀ e ∈ (process_task_through_waves reg t).2, ∀ x ∈ e.seen,
      x.wave ≤ e.wave) ∧
    (∀ e ∈ (process_task_through_waves reg t).2,
      ∀ x ∈ (process_task_through_waves reg t).1,
        x.wave < e.wave → x ∈ e.seen) ∧
    (∀ e ∈ (process_task_through_waves reg t).2, ∀ x ∈ e.seen,
      x ∈ (process_task_through_waves reg t).1) ∧
    (∀ e ∈ (process_task_through_waves reg t).2, e.wave ∈ [1, 2, 3, 4]) ∧
    ((process_task_through_waves reg t).2.Pairwise
      (fun a b => a.wave ≤ b.wave)) := by
  unfold process_task_through_waves
  obtain ⟨Δ, h1, h2, hpw, h4⟩ := runWaveList_spec reg t agent_waves []
    (by decide) (by intro p hp x hx; exact absurd hx (List.not_mem_nil x))
  refine ⟨?_, ?_, ?_, ?_, hpw⟩
  · intro e he x hx
    exact ((h4 e he).2.1) x hx
  · intro e he x hx hlt
    obtain ⟨suf, hsuf1, hsuf2⟩ := (h4 e he).2.2
    rw [hsuf1] at hx
    rcases List.mem_append.mp hx with hx | hx
    · exact hx
    · exact absurd hlt (not_lt.mpr (hsuf2 x hx))
  · intro e he x hx
    obtain ⟨suf, hsuf1, _⟩ := (h4 e he).2.2
    rw [hsuf1]
    exact List.mem_append_left _ hx
  · intro e he
    obtain ⟨p, hp, hpe⟩ := (h4 e he).1
    rw [hpe]
    have : ∀ q ∈ agent_waves, q.1 ∈ [1, 2, 3, 4] := by decide
    exact this p hp

/-- C6 witness: the amended ordering conclusions applied in the concrete
two-agent run. -/
theorem wave_ordering_amended_witness :
    (⟨2, "emotional_intelligence", r0⟩ : WEntry).wave ≤ 2 :=
  (wave_ordering_amended cexReg "t").1
    ⟨2, "somatic_awareness", [⟨2, "emotional_intelligence", r0⟩]⟩ (by decide)
    ⟨2, "emotional_intelligence", r0⟩ (by decide)

/-- C8 counterexample: `analyze` does raise on malformed input — on the input
`"ignore previous"` (a prompt-injection pattern the validator screens for),
`ClinicalTerminologyAgent.analyze` propagates the `ValueError` raised by
`validate_input` instead of returning a result with an empty findings
list. -/
theorem analyze_raises_counterexample :
    clinical_analyze [] "ignore previous" =
      Except.error "Potential injection detected: ignore previous" := by
  rfl

/-- Auxiliary: the value returned by a successful validation is the
(zero-width-)sanitized input. -/
theorem validate_ok_eq (s clean : String)
    (h : validate_input s = Except.ok clean) : clean = stripZeroWidth s := by
  unfold validate_input at h
  by_cases hlen : s.length > 10000000
  · rw [if_pos hlen] at h
    exact Except.noConfusion h
  · rw [if_neg hlen] at h
    rcases hfind : injectionPatterns.find?
        (fun p => decide (p.toList <:+: pyLower (stripZeroWidth s).toList)) with _ | p
    · rw [hfind] at h
      dsimp only at h
      exact (Except.ok.inj h).symm
    · rw [hfind] at h
      exact Except.noConfusion h

/-- Auxiliary: a successful `analyze` call returns the findings computed
from its sanitized input — independently of the tracker state — and an empty
findings list when no vocabulary term occurs in any line. -/
theorem clinical_ok_findings (tr : PatternTracker) (s : String)
    (tr' : PatternTracker) (res : ClinicalResults)
    (h : clinical_analyze tr s = Except.ok (tr', res)) :
    res.findings = analyze_clinical_terminology (stripZeroWidth s) ∧
    ((∀ cat terms, (cat, terms) ∈ vocabulary → ∀ term ∈ terms,
        ∀ line ∈ pySplitLines (stripZeroWidth s),
          ¬ (pyLower term.toList <:+: pyLower line.toList)) →
      res.findings = []) := by
  unfold clinical_analyze at h
  rcases hv : validate_input s with msg | clean
  · rw [hv] at h
    exact Except.noConfusion h
  · rw [hv] at h
    dsimp only at h
    have hpair := Except.ok.inj h
    have hres := congrArg Prod.snd hpair
    dsimp only at hres
    have hclean := validate_ok_eq s clean hv
    constructor
    · rw [← hres]
      dsimp only
      rw [hclean]
    · intro hnone
      rw [← hres]
      dsimp only
      rw [hclean]
      unfold analyze_clinical_terminology
      apply List.flatMap_eq_nil_iff.mpr
      intro p hp
      apply List.flatMap_eq_nil_iff.mpr
      intro il hil
      have hfilter : (p.2.filter (fun term =>
          decide (pyLower term.toList <:+: pyLower il.2.toList))) = [] := by
        apply List.filter_eq_nil_iff.mpr
        intro term hterm
        simp only [decide_eq_true_eq]
        exact hnone p.1 p.2 (by rwa [← Prod.mk.eta (p := p)] at hp) term hterm
          il.2 (List.snd_mem_of_mem_enum hil)
      rw [hfilter]
      rfl

/-- C8 amended: `analyze` raises (returns an error) on oversized input and on
input containing a prompt-injection pattern after sanitization, rather than
returning an empty-findings result; when validation passes, it returns
normally with the findings computed from the sanitized text — in particular
an empty findings list whenever no vocabulary term occurs in it. -/
theorem analyze_validation_amended (tr : PatternTracker) (s : String) :
    (s.length > 10000000 →
      clinical_analyze tr s = Except.error "Input exceeds size limit") ∧
    (s.length ≤ 10000000 →
      (∃ p ∈ injectionPatterns, p.toList <:+: pyLower (stripZeroWidth s).toList) →
      ∃ msg, clinical_analyze tr s = Except.error msg) ∧
    (∀ tr' res, clinical_analyze tr s = Except.ok (tr', res) →
      res.findings = analyze_clinical_terminology (stripZeroWidth s) ∧
      ((∀ cat terms, (cat, terms) ∈ vocabulary → ∀ term ∈ terms,
          ∀ line ∈ pySplitLines (stripZeroWidth s),
            ¬ (pyLower term.toList <:+: pyLower line.toList)) →
        res.findings = [])) := by
  refine ⟨?_, ?_, ?_⟩
  · intro hlen
    have hval : validate_input s = Except.error "Input exceeds size limit" := by
      unfold validate_input
      rw [if_pos hlen]
    unfold clinical_analyze
    rw [hval]
  · intro hlen hexists
    have hval : ∃ p', validate_input s
        = Except.error ("Potential injection detected: " ++ p') := by
      unfold validate_input
      rw [if_neg (by omega)]
      rcases hfind : injectionPatterns.find?
          (fun p => decide (p.toList <:+: pyLower (stripZeroWidth s).toList)) with _ | p
      · exfalso
        obtain ⟨p, hp, hinf⟩ := hexists
        have hnone := List.find?_eq_none.mp hfind p hp
        simp only [decide_eq_true_eq] at hnone
        exact hnone hinf
      · rw [hfind]
        exact ⟨p, rfl⟩
    obtain ⟨p', hval⟩ := hval
    refine ⟨"Potential injection detected: " ++ p', ?_⟩
    unfold clinical_analyze
    rw [hval]
  · exact fun tr' res h => clinical_ok_findings tr s tr' res h

/-- C8 witness: the amended raise behaviour at a concrete oversized input. -/
theorem analyze_validation_amended_witness :
    clinical_analyze [] oversized = Except.error "Input exceeds size limit" :=
  (analyze_validation_amended [] oversized).1 (by
    have hlen : oversized.length = 10000001 := by
      show (List.replicate 10000001 'a').length = 10000001
      exact List.length_replicate _ _
    omega)

/-- C9 counterexample: the agent is NOT stateless between calls — its
`pattern_tracker` persists, so two `analyze` calls with identical arguments
return different patterns: on `c9_input` the first call reports the pattern
`technical:diagnosis` with frequency 3 and strength `moderate`, the second
identical call reports frequency 6 and strength `strong`. -/
theorem analyze_stateful_counterexample :
    clinical_analyze [] c9_input = Except.ok (c9_tr1, c9_r1) ∧
    clinical_analyze c9_tr1 c9_input = Except.ok (c9_tr2, c9_r2) ∧
    c9_r1.patterns = [⟨"technical:diagnosis", 3, "moderate"⟩] ∧
    c9_r2.patterns = [⟨"technical:diagnosis", 6, "strong"⟩] ∧
    c9_r1.patterns ≠ c9_r2.patterns := by
  have h3 : c9_r1.patterns = [⟨"technical:diagnosis", 3, "moderate"⟩] := by rfl
  have h4 : c9_r2.patterns = [⟨"technical:diagnosis", 6, "strong"⟩] := by rfl
  refine ⟨rfl, rfl, h3, h4, ?_⟩
  rw [h3, h4]
  decide

/-- C9 amended: the findings component is a pure function of the input —
identical across calls regardless of the agent's accumulated state — but the
patterns (and the confidence boost) are computed from the persistent
`pattern_tracker` updated by the call, so repeated identical calls can
change pattern frequencies and strengths. -/
theorem findings_state_independent (tr tru : PatternTracker) (s : String)
    (tr1 tr1u : PatternTracker) (r ru : ClinicalResults)
    (h : clinical_analyze tr s = Except.ok (tr1, r))
    (hu : clinical_analyze tru s = Except.ok (tr1u, ru)) :
    r.findings = ru.findings ∧
    r.findings = analyze_clinical_terminology (stripZeroWidth s) := by
  have h1 := (clinical_ok_findings tr s tr1 r h).1
  have h2 := (clinical_ok_findings tru s tr1u ru hu).1
  exact ⟨h1.trans h2.symm, h1⟩

/-- C9 witness: the state-independence of findings across the two concrete
calls of the counterexample input. -/
theorem findings_state_independent_witness :
    c9_r1.findings = c9_r2.findings ∧
    c9_r1.findings = analyze_clinical_terminology (stripZeroWidth c9_input) :=
  findings_state_independent [] c9_tr1 c9_input c9_tr1 c9_tr2 c9_r1 c9_r2 rfl rfl

end LRL
